import Mathlib

/-!
A shallow embedding of the compilation core of the tailcall GraphQL gateway:
the error-accumulating validation algebra, the mustache template language and
its call-time substitution (src/blueprint/operators/call.rs), the
directive-decoding / AST-lowering layer (src/config/from_document.rs) and the
introspection-cache update pass.  Machinery the repository keeps outside the
staged sources (the validation crate, the mustache parser, the directive
codecs, the protocol compilers and the introspection fetcher) is either
modelled from the spec or abstracted as an explicit parameter; everything
else is translated from the source files.
-/

namespace Tailcall

/-! ## Validation algebra

Modelled from the spec: the crate `valid` (not under the staged sources)
provides an error-accumulating result type.  A failure is a non-empty list of
causes, each a message with a trace of context labels; `zip` concatenates the
failures of both sides, `and_then` short-circuits, `trace` prepends a label
to every cause, `from_iter` maps an accumulating function over a collection
and collects all successes or all failures. -/

structure Cause (e : Type) where
  message : e
  trace : List String
deriving Repr, DecidableEq

abbrev Valid (a e : Type) : Type := Except (List (Cause e)) a

/-- Modelled from the spec: `Valid::succeed`. -/
def Valid.succeed {a e : Type} (v : a) : Valid a e := Except.ok v

/-- Modelled from the spec: `Valid::fail`, a single cause with an empty trace. -/
def Valid.fail {a e : Type} (msg : e) : Valid a e := Except.error [⟨msg, []⟩]

/-- The causes a result carries: none on success. -/
def Valid.errors {a e : Type} : Valid a e → List (Cause e)
  | Except.ok _ => []
  | Except.error es => es

/-- Modelled from the spec: `map` leaves failures untouched. -/
def Valid.map {a b e : Type} (f : a → b) : Valid a e → Valid b e
  | Except.ok v => Except.ok (f v)
  | Except.error es => Except.error es

/-- Modelled from the spec: `and_then` sequences dependently, short-circuiting
on failure. -/
def Valid.and_then {a b e : Type} (v : Valid a e) (f : a → Valid b e) : Valid b e :=
  match v with
  | Except.ok x => f x
  | Except.error es => Except.error es

/-- Modelled from the spec: `zip` combines two independent results
applicatively, concatenating the failures of both sides. -/
def Valid.zip {a b e : Type} : Valid a e → Valid b e → Valid (a × b) e
  | Except.ok x, Except.ok y => Except.ok (x, y)
  | Except.ok _, Except.error es => Except.error es
  | Except.error es, Except.ok _ => Except.error es
  | Except.error es, Except.error es2 => Except.error (es ++ es2)

/-- Modelled from the spec: `trace` prepends a label to every failure's trace
without altering successes. -/
def Valid.trace {a e : Type} (v : Valid a e) (label : String) : Valid a e :=
  match v with
  | Except.ok x => Except.ok x
  | Except.error es => Except.error (es.map fun c => ⟨c.message, label :: c.trace⟩)

/-- Modelled from the spec: `from_option`. -/
def Valid.from_option {a e : Type} (o : Option a) (msg : e) : Valid a e :=
  match o with
  | some v => Valid.succeed v
  | none => Valid.fail msg

/-- Modelled from the spec: `from_iter` maps an accumulating function over a
collection and collects all successes or all failures, in order. -/
def Valid.from_iter {α b e : Type} (xs : List α) (f : α → Valid b e) : Valid (List b) e :=
  match xs with
  | [] => Valid.succeed []
  | x :: rest => (Valid.zip (f x) (Valid.from_iter rest f)).map fun p => p.1 :: p.2

/-- Rust's `.to_result().ok()` on a validation result. -/
def Valid.toOption {a e : Type} : Valid a e → Option a
  | Except.ok v => some v
  | Except.error _ => none

/-! ## Mustache templates

Modelled from the spec: the crate `mustache` (not under the staged sources)
represents a template as an ordered sequence of segments, each a literal run
or a `\x7b\x7bpath.to.value\x7d\x7d` expression whose path is a non-empty
dot-separated identifier sequence; the non-emptiness invariant of the data
model is encoded by splitting the path into its head and the rest.  `parse`
partitions a string into literal runs and expressions. -/

inductive Segment where
  | literal : String → Segment
  | expression : String → List String → Segment
deriving Repr, DecidableEq

abbrev Mustache : Type := List Segment

/-- A possibly empty literal run as segments. -/
def litSeg (t : String) : List Segment :=
  if t = "" then [] else [Segment.literal t]

def lbrace : Char := '\x7b'
def rbrace : Char := '\x7d'

/-- Text before the first doubled `ch`, and the rest after the pair when one
occurs. -/
def splitAtDouble (ch : Char) : List Char → List Char × Option (List Char)
  | [] => ([], none)
  | [c] => ([c], none)
  | c :: c2 :: rest =>
    if c == ch && c2 == ch then ([], some rest)
    else
      let p := splitAtDouble ch (c2 :: rest)
      (c :: p.1, p.2)

/-- Groups of characters between occurrences of `ch`. -/
def splitOnChar (ch : Char) : List Char → List (List Char)
  | [] => [[]]
  | c :: rest =>
    let r := splitOnChar ch rest
    if c == ch then [] :: r
    else
      match r with
      | [] => [[c]]
      | g :: gs => (c :: g) :: gs

/-- Leading and trailing whitespace removed. -/
def trimChars (cs : List Char) : List Char :=
  ((cs.dropWhile Char.isWhitespace).reverse.dropWhile Char.isWhitespace).reverse

/-- A dot-separated identifier path, each identifier trimmed and non-empty,
split into its head and the rest. -/
def parseIdentPath (cs : List Char) : Option (String × List String) :=
  match (splitOnChar '.' (trimChars cs)).map (fun p => (trimChars p).asString) with
  | [] => none
  | p :: ps => if (p :: ps).all (fun x => !x.isEmpty) then some (p, ps) else none

/-- The scanner behind `Mustache.parse`: fuel-indexed so that recursion is
structural; the fuel is at least the number of characters, which bounds the
number of expressions. -/
def parseTemplateAux : Nat → List Char → List Segment
  | 0, cs => litSeg cs.asString
  | Nat.succ fuel, cs =>
    match splitAtDouble lbrace cs with
    | (pre, none) => litSeg pre.asString
    | (pre, some rest) =>
      match splitAtDouble rbrace rest with
      | (_, none) => litSeg cs.asString
      | (inner, some rest2) =>
        litSeg pre.asString ++
          (match parseIdentPath inner with
           | some (h, t) => [Segment.expression h t]
           | none =>
             litSeg (⟨[lbrace, lbrace] ++ inner ++ [rbrace, rbrace]⟩ : String)) ++
          parseTemplateAux fuel rest2

/-- Modelled from the spec: `Mustache::parse` partitions a template string
into literal runs and expression segments, each expression a non-empty
dot-separated identifier path. -/
def Mustache.parse (s : String) : Mustache :=
  parseTemplateAux (s.data.length + 1) s.data

/-! ## Shared configuration payloads

The directive payload types live outside the staged sources: the claims never
inspect their contents, only route them, so they are carried opaquely. -/

/-- Opaque payload of an `http` directive (`config::Http`). -/
structure HttpDirective where
  tag : Nat
deriving Repr, DecidableEq, Inhabited

/-- Opaque payload of a `graphql` directive in the call-compilation module
(`config::GraphQL`). -/
structure GraphQLDirective where
  tag : Nat
deriving Repr, DecidableEq, Inhabited

/-- Opaque payload of a `grpc` directive (`config::Grpc`). -/
structure GrpcDirective where
  tag : Nat
deriving Repr, DecidableEq, Inhabited

/-- Opaque payload of a `modify` directive (`config::ModifyField`). -/
structure ModifyField where
  tag : Nat
deriving Repr, DecidableEq, Inhabited

/-- Opaque payload of an `inline` directive (`config::InlineType`). -/
structure InlineType where
  tag : Nat
deriving Repr, DecidableEq, Inhabited

/-- Opaque payload of an `unsafe` directive (`config::Unsafe`). -/
structure UnsafeOperation where
  tag : Nat
deriving Repr, DecidableEq, Inhabited

/-- Opaque payload of a `const` directive (`config::ConstField`). -/
structure ConstField where
  tag : Nat
deriving Repr, DecidableEq, Inhabited

/-- The `groupBy` directive's batch key (`config::group_by::GroupBy`): the
executor's group/batch key is the path it carries. -/
structure GroupBy where
  path : List String
deriving Repr, DecidableEq, Inhabited

/-- Modelled from the spec: a cached description of a foreign GraphQL
endpoint's schema, consumed only through this opaque result type. -/
structure IntrospectionResult where
  data : String
deriving Repr, DecidableEq, Inhabited

/-- The decoded `graphql` directive of the lowering module
(`config::GraphQLSource`): its base URL and, once compilation resolved it,
the endpoint's introspection result. -/
structure GraphQLSource where
  base_url : Option String
  introspection : Option IntrospectionResult
deriving Repr, DecidableEq, Inhabited

namespace CallOp

/-! ## Call-resolution compiler (src/blueprint/operators/call.rs)

The protocol compilers `compile_http`, `compile_graphql` and `compile_grpc`
are outside the staged sources and enter as explicit parameters.  Rust
panics (`unwrap`, out-of-bounds indexing) are modelled by `Option`: `none`
is a panic of the original function. -/

/-- `config::Call`: the delegation target and the literal argument mapping. -/
structure Call where
  query : Option String
  mutation : Option String
  args : List (String × String)
deriving Repr, DecidableEq, Inhabited

/-- `config::Arg` as far as call compilation inspects it. -/
structure Arg where
  type_of : String
  required : Bool
deriving Repr, DecidableEq, Inhabited

/-- `config::Field` of the call-compilation module: the declared arguments
and the optional resolver directives. -/
structure Field where
  args : List (String × Arg)
  http : Option HttpDirective
  graphql : Option GraphQLDirective
  grpc : Option GrpcDirective
  call : Option Call
  const_field : Option ConstField
deriving Repr, DecidableEq, Inhabited

/-- `config::Type`: the named fields of one schema type. -/
structure ConfigType where
  fields : List (String × Field)
deriving Repr, DecidableEq, Inhabited

/-- The part of `ConfigModule` that call compilation reads: the type map. -/
structure ConfigModule where
  types : List (String × ConfigType)
deriving Repr, DecidableEq, Inhabited

/-- `Config::find_type`. -/
def ConfigModule.find_type (cm : ConfigModule) (name : String) : Option ConfigType :=
  cm.types.lookup name

inductive GraphQLOperationType where
  | query
  | mutation
deriving Repr, DecidableEq, Inhabited

/-- Modelled from the spec: `http::RequestTemplate`, the bag of template
components of an HTTP request. -/
structure HttpRequestTemplate where
  root_url : Mustache
  query : List (String × Mustache)
  headers : List (String × Mustache)
  body_path : Option Mustache
deriving Repr, DecidableEq, Inhabited

/-- Modelled from the spec: `graphql::RequestTemplate`. -/
structure GraphQLRequestTemplate where
  headers : List (String × Mustache)
  operation_arguments : Option (List (String × Mustache))
deriving Repr, DecidableEq, Inhabited

/-- Modelled from the spec: `grpc::RequestTemplate`. -/
structure GrpcRequestTemplate where
  url : Mustache
  headers : List (String × Mustache)
  body : Option Mustache
deriving Repr, DecidableEq, Inhabited

abbrev DataLoaderId : Type := Nat

/-- `lambda::IO`: the I/O variants of the expression IR, each carrying its
request template and its batching metadata. -/
inductive IoNode where
  | http (req_template : HttpRequestTemplate)
      (group_by : Option GroupBy) (dl_id : Option DataLoaderId)
  | graphql (req_template : GraphQLRequestTemplate)
      (field_name : String) (batch : Bool) (dl_id : Option DataLoaderId)
  | grpc (req_template : GrpcRequestTemplate)
      (group_by : Option GroupBy) (dl_id : Option DataLoaderId)
deriving Repr, DecidableEq, Inhabited

/-- `lambda::Expression` restricted to the variants call compilation
produces or inspects. -/
inductive Expression where
  | literal (value : String)
  | io (node : IoNode)
deriving Repr, DecidableEq, Inhabited

/-- Modelled from the spec: the shared protocol compilation routines
(`compile_http`, `compile_graphql`, `compile_grpc` live outside the staged
sources), abstracted as parameters. -/
structure Compilers where
  compile_http : ConfigModule → Field → HttpDirective → Valid Expression String
  compile_graphql :
    ConfigModule → GraphQLOperationType → GraphQLDirective → Valid Expression String
  compile_grpc :
    ConfigModule → GraphQLOperationType → Field → GrpcDirective → Bool →
      Valid Expression String

/-- `find_value`: the first value the argument mapping holds under `key`. -/
def find_value (args : List (String × String)) (key : String) : Option String :=
  args.findSome? fun kv => if kv.1 = key then some kv.2 else none

/-- One segment of `replace_mustache_value`: a literal passes through; an
expression headed by a path element other than `args` passes through; an
`args`-headed expression is replaced by the first segment of the re-parsed
value looked up under its second path element.  `none` is a panic of the
source (`expression[1]` out of bounds, `find_value(..).unwrap()`, or
`first().unwrap()` on an empty re-parse). -/
def replace_segment (args : List (String × String)) : Segment → Option Segment
  | Segment.literal l => some (Segment.literal l)
  | Segment.expression h rest =>
    if h = "args" then
      match rest.head? with
      | none => none
      | some second =>
        match find_value args second with
        | none => none
        | some value =>
          match (Mustache.parse value).head? with
          | none => none
          | some seg => some seg
    else
      some (Segment.expression h rest)

/-- `replace_mustache_value`: substitution over every segment of a
template. -/
def replace_mustache_value (value : Mustache) (args : List (String × String)) :
    Option Mustache :=
  value.mapM (replace_segment args)

/-- `replace_mustache`: substitution on the template of a keyed pair
(header, query parameter or operation argument). -/
def replace_mustache (args : List (String × String)) (kv : String × Mustache) :
    Option (String × Mustache) :=
  (replace_mustache_value kv.2 args).map fun m => (kv.1, m)

/-- The substitution `transform_http` applies to the compiled HTTP request
template: root url, query parameters, headers and body path, each with the
same argument mapping. -/
def subst_http_template (rt : HttpRequestTemplate) (args : List (String × String)) :
    Option HttpRequestTemplate :=
  match replace_mustache_value rt.root_url args,
      rt.query.mapM (replace_mustache args),
      rt.headers.mapM (replace_mustache args),
      (match rt.body_path with
       | none => some none
       | some bp => (replace_mustache_value bp args).map some) with
  | some root_url, some query, some headers, some body_path =>
    some ⟨root_url, query, headers, body_path⟩
  | _, _, _, _ => none

/-- The substitution `transform_graphql` applies: headers and, when present,
the operation arguments. -/
def subst_graphql_template (rt : GraphQLRequestTemplate)
    (args : List (String × String)) : Option GraphQLRequestTemplate :=
  match rt.headers.mapM (replace_mustache args),
      (match rt.operation_arguments with
       | none => some none
       | some oa => (oa.mapM (replace_mustache args)).map some) with
  | some headers, some operation_arguments => some ⟨headers, operation_arguments⟩
  | _, _ => none

/-- The substitution `transform_grpc` applies: url, headers and body. -/
def subst_grpc_template (rt : GrpcRequestTemplate) (args : List (String × String)) :
    Option GrpcRequestTemplate :=
  match replace_mustache_value rt.url args,
      rt.headers.mapM (replace_mustache args),
      (match rt.body with
       | none => some none
       | some b => (replace_mustache_value b args).map some) with
  | some url, some headers, some body => some ⟨url, headers, body⟩
  | _, _, _ => none

/-- `transform_http`: compile the target's `http` resolver, then rebuild the
`IO` node with the substituted template, keeping `group_by` and `dl_id`.
`none` is a panic (`Http::try_from(expr).unwrap()` on a non-HTTP expression,
or a substitution panic). -/
def transform_http (C : Compilers) (cm : ConfigModule) (field : Field)
    (http : HttpDirective) (args : List (String × String)) :
    Option (Valid Expression String) :=
  match C.compile_http cm field http with
  | Except.error es => some (Except.error es)
  | Except.ok expr =>
    match expr with
    | Expression.io (IoNode.http rt group_by dl_id) =>
      (subst_http_template rt args).map fun rt2 =>
        Valid.succeed (Expression.io (IoNode.http rt2 group_by dl_id))
    | _ => none

/-- `transform_graphql`: same shape for the `graphql` resolver, keeping
`field_name`, `batch` and `dl_id`. -/
def transform_graphql (C : Compilers) (cm : ConfigModule)
    (operation_type : GraphQLOperationType) (graphql : GraphQLDirective)
    (args : List (String × String)) : Option (Valid Expression String) :=
  match C.compile_graphql cm operation_type graphql with
  | Except.error es => some (Except.error es)
  | Except.ok expr =>
    match expr with
    | Expression.io (IoNode.graphql rt field_name batch dl_id) =>
      (subst_graphql_template rt args).map fun rt2 =>
        Valid.succeed (Expression.io (IoNode.graphql rt2 field_name batch dl_id))
    | _ => none

/-- `transform_grpc`: same shape for the `grpc` resolver, keeping `group_by`
and `dl_id`; `validate_with_schema` is passed as `false` exactly as the
source does. -/
def transform_grpc (C : Compilers) (cm : ConfigModule)
    (operation_type : GraphQLOperationType) (field : Field)
    (grpc : GrpcDirective) (args : List (String × String)) :
    Option (Valid Expression String) :=
  match C.compile_grpc cm operation_type field grpc false with
  | Except.error es => some (Except.error es)
  | Except.ok expr =>
    match expr with
    | Expression.io (IoNode.grpc rt group_by dl_id) =>
      (subst_grpc_template rt args).map fun rt2 =>
        Valid.succeed (Expression.io (IoNode.grpc rt2 group_by dl_id))
    | _ => none

/-- `get_type_and_field`: `Query` with the named field when the call sets a
query target, else `Mutation` when it sets a mutation target. -/
def get_type_and_field (call : Call) : Option (String × String) :=
  match call.query with
  | some q => some ("Query", q)
  | none => call.mutation.map fun m => ("Mutation", m)

/-- `get_field_and_field_name`: resolve the call's target field, failing with
the appropriate message at each missing stage. -/
def get_field_and_field_name (call : Call) (cm : ConfigModule) :
    Valid (Field × String × List (String × String)) String :=
  (Valid.from_option (get_type_and_field call)
      "call must have query or mutation").and_then fun tf =>
    ((Valid.from_option (cm.find_type tf.1)
        (tf.1 ++ " type not found on config")).and_then fun query_type =>
      Valid.from_option (query_type.fields.lookup tf.2)
        (tf.2 ++ " field not found")).map fun f => (f, tf.2, call.args)

/-- The resolver dispatch at the end of `compile_call`: `http`, else
`graphql`, else `grpc`, else the no-resolver failure. -/
def dispatch_resolver (C : Compilers) (cm : ConfigModule) (field : Field)
    (operation_type : GraphQLOperationType) (tfield : Field)
    (field_name : String) (args : List (String × String)) :
    Option (Valid Expression String) :=
  match tfield.http with
  | some http => transform_http C cm field http args
  | none =>
    match tfield.graphql with
    | some graphql => transform_graphql C cm operation_type graphql args
    | none =>
      match tfield.grpc with
      | some grpc => transform_grpc C cm operation_type field grpc args
      | none => some (Valid.fail (field_name ++ " field has no resolver"))

/-- `compile_call`: resolve the target, check that every declared argument of
the target appears in the call's argument mapping (collecting all missing
names into one traced failure), then dispatch on the target's resolver. -/
def compile_call (C : Compilers) (field : Field) (cm : ConfigModule)
    (call : Call) (operation_type : GraphQLOperationType) :
    Option (Valid Expression String) :=
  match get_field_and_field_name call cm with
  | Except.error es => some (Except.error es)
  | Except.ok (tfield, field_name, args) =>
    let empties := tfield.args.filter fun ka => !(args.any fun kv => kv.1 = ka.1)
    if 0 < empties.length then
      some ((Valid.fail ("no argument " ++
        String.intercalate ", " (empties.map fun ka => "'" ++ ka.1 ++ "'") ++
        " found")).trace field_name)
    else
      dispatch_resolver C cm field operation_type tfield field_name args

end CallOp

namespace FromDoc

/-! ## AST lowering and directive decoding (src/config/from_document.rs)

The directive codecs (`DirectiveCodec::from_directive` of each payload type)
live outside the staged sources and enter as explicit decoder parameters.
Positional spans of the AST are dropped; `BTreeMap`s are carried as ordered
association lists. -/

/-- `async_graphql::parser::types::ConstDirective`: a named annotation block
with an argument list. -/
structure Directive where
  name : String
  arguments : List (String × String)
deriving Repr, DecidableEq, Inhabited

/-- Modelled from the spec: the registered decoding rule of each directive
payload type, abstracted as parameters. -/
structure Codecs where
  http_from_directive : Directive → Valid HttpDirective String
  graphql_from_directive : Directive → Valid GraphQLSource String
  modify_from_directive : Directive → Valid ModifyField String
  inline_from_directive : Directive → Valid InlineType String
  unsafe_from_directive : Directive → Valid UnsafeOperation String
  groupby_from_directive : Directive → Valid GroupBy String
  const_from_directive : Directive → Valid ConstField String

/-- The base of an AST type reference; a list carries its item's base and
nullability inline. -/
inductive BaseTypeAst where
  | named : String → BaseTypeAst
  | list : BaseTypeAst → Bool → BaseTypeAst
deriving Repr, DecidableEq, Inhabited

/-- `async_graphql::parser::types::Type`: a base with nullability. -/
structure TypeAst where
  base : BaseTypeAst
  nullable : Bool
deriving Repr, DecidableEq, Inhabited

/-- `InputValueDefinition`: an argument or input-object field of the AST. -/
structure InputValueDefinition where
  name : String
  ty : TypeAst
  description : Option String
  directives : List Directive
  default_value : Option String
deriving Repr, DecidableEq, Inhabited

/-- `FieldDefinition` of the AST. -/
structure FieldDefinition where
  name : String
  ty : TypeAst
  description : Option String
  arguments : List InputValueDefinition
  directives : List Directive
deriving Repr, DecidableEq, Inhabited

/-- `TypeKind`: the six AST kinds the lowering dispatches on. -/
inductive TypeKind where
  | object (fields : List FieldDefinition) (implements : List String)
  | interface (fields : List FieldDefinition) (implements : List String)
  | enum (values : List String)
  | inputObject (fields : List InputValueDefinition)
  | union (members : List String)
  | scalar
deriving Repr, DecidableEq, Inhabited

/-- `TypeDefinition` of the AST. -/
structure TypeDefinition where
  name : String
  description : Option String
  kind : TypeKind
deriving Repr, DecidableEq, Inhabited

/-- `SchemaDefinition`: the schema block with its root names and its
directives. -/
structure SchemaDefinition where
  directives : List Directive
  query : Option String
  mutation : Option String
  subscription : Option String
deriving Repr, DecidableEq, Inhabited

/-- `config::Arg` as the lowering produces it. -/
structure ConfigArg where
  type_of : String
  list : Bool
  required : Bool
  doc : Option String
  modify : Option ModifyField
  default_value : Option String
deriving Repr, DecidableEq, Inhabited

/-- `config::Field` as the lowering produces it. -/
structure ConfigField where
  type_of : String
  list : Bool
  required : Bool
  list_type_required : Bool
  args : List (String × ConfigArg)
  doc : Option String
  modify : Option ModifyField
  inline : Option InlineType
  http : Option HttpDirective
  unsafe_operation : Option UnsafeOperation
  group_by : Option GroupBy
  const_field : Option ConstField
  graphql_source : Option GraphQLSource
deriving Repr, DecidableEq, Inhabited

/-- `config::Type` as the lowering produces it. -/
structure ConfigTypeDef where
  fields : List (String × ConfigField)
  doc : Option String
  interface : Bool
  implements : List String
  variants : Option (List String)
  scalar : Bool
deriving Repr, DecidableEq, Inhabited

/-- `Default::default()` for `config::Type`. -/
def ConfigTypeDef.default : ConfigTypeDef :=
  ⟨[], none, false, [], none, false⟩

/-- `process_schema_directives`: walk every directive of the schema block in
document order; a block whose name matches replaces the accumulated result
with its own decode. -/
def process_schema_directives {T : Type} (from_directive : Directive → Valid T String)
    (default : T) (schema_directives : List Directive) (directive_name : String) :
    Valid T String :=
  schema_directives.foldl
    (fun res d => if d.name = directive_name then from_directive d else res)
    (Valid.succeed default)

/-- `server`: the schema block's `server` directives decoded. -/
def server {T : Type} (from_directive : Directive → Valid T String) (default : T)
    (sd : SchemaDefinition) : Valid T String :=
  process_schema_directives from_directive default sd.directives "server"

/-- `upstream`: the schema block's `upstream` directives decoded. -/
def upstream {T : Type} (from_directive : Directive → Valid T String) (default : T)
    (sd : SchemaDefinition) : Valid T String :=
  process_schema_directives from_directive default sd.directives "upstream"

/-- A concrete two-field stand-in for a decoded `server` block, for
observing the merge behaviour of repeated blocks. -/
structure ServerSettings where
  f1 : Option String
  f2 : Option String
deriving Repr, DecidableEq, Inhabited

/-- A decode rule for `ServerSettings`: each field read from the block's
argument list when present. -/
def decode_server_settings (d : Directive) : Valid ServerSettings String :=
  Valid.succeed ⟨d.arguments.lookup "f1", d.arguments.lookup "f2"⟩

/-- Field-by-field last-write-wins merge of two `ServerSettings`. -/
def merge_server_settings (old new : ServerSettings) : ServerSettings :=
  ⟨match new.f1 with | some v => some v | none => old.f1,
   match new.f2 with | some v => some v | none => old.f2⟩

/-- Modelled from the spec: repeatable root-level directive decoding that
processes every matching block in document order and merges the decoded
blocks field-by-field, later blocks overriding earlier ones.  Stated over
the concrete `ServerSettings` payload to compare with
`process_schema_directives`. -/
def process_schema_directives_merged
    (from_directive : Directive → Valid ServerSettings String)
    (default : ServerSettings) (schema_directives : List Directive)
    (directive_name : String) : Valid ServerSettings String :=
  schema_directives.foldl
    (fun res d =>
      if d.name = directive_name then
        (Valid.zip res (from_directive d)).map fun p => merge_server_settings p.1 p.2
      else res)
    (Valid.succeed default)

/-- `to_modify`: the first `modify` block whose decode succeeds; a failing
decode is discarded by `.to_result().ok()`. -/
def to_modify (C : Codecs) (directives : List Directive) : Option ModifyField :=
  directives.findSome? fun d =>
    if d.name = "modify" then (C.modify_from_directive d).toOption else none

/-- `to_inline`: same shape for `inline`. -/
def to_inline (C : Codecs) (directives : List Directive) : Option InlineType :=
  directives.findSome? fun d =>
    if d.name = "inline" then (C.inline_from_directive d).toOption else none

/-- `to_unsafe_operation`: same shape for `unsafe`. -/
def to_unsafe_operation (C : Codecs) (directives : List Directive) :
    Option UnsafeOperation :=
  directives.findSome? fun d =>
    if d.name = "unsafe" then (C.unsafe_from_directive d).toOption else none

/-- `to_batch`: same shape for `groupBy`. -/
def to_batch (C : Codecs) (directives : List Directive) : Option GroupBy :=
  directives.findSome? fun d =>
    if d.name = "groupBy" then (C.groupby_from_directive d).toOption else none

/-- `to_const_field`: same shape for `const`. -/
def to_const_field (C : Codecs) (directives : List Directive) : Option ConstField :=
  directives.findSome? fun d =>
    if d.name = "const" then (C.const_from_directive d).toOption else none

/-- `to_http`: the first `http` block returns its decode (failure included)
mapped into `some`; no matching block yields `succeed none`. -/
def to_http (C : Codecs) (directives : List Directive) :
    Valid (Option HttpDirective) String :=
  match directives.find? (fun d => d.name == "http") with
  | some d => (C.http_from_directive d).map some
  | none => Valid.succeed none

/-- `to_graphqlsource`: same shape for `graphql`. -/
def to_graphqlsource (C : Codecs) (directives : List Directive) :
    Valid (Option GraphQLSource) String :=
  match directives.find? (fun d => d.name == "graphql") with
  | some d => (C.graphql_from_directive d).map some
  | none => Valid.succeed none

/-- `to_type_of`: the named base, one level under a list. -/
def to_type_of (ty : TypeAst) : String :=
  match ty.base with
  | BaseTypeAst.named n => n
  | BaseTypeAst.list ib _ =>
    match ib with
    | BaseTypeAst.named n => n
    | _ => ""

/-- Whether the AST type is a list. -/
def is_list_base (ty : TypeAst) : Bool :=
  match ty.base with
  | BaseTypeAst.list _ _ => true
  | _ => false

/-- Whether the AST type is a list of non-nullable items. -/
def list_item_required (ty : TypeAst) : Bool :=
  match ty.base with
  | BaseTypeAst.list _ inner_nullable => !inner_nullable
  | _ => false

/-- `to_arg`. -/
def to_arg (C : Codecs) (ivd : InputValueDefinition) : ConfigArg :=
  ⟨to_type_of ivd.ty, is_list_base ivd.ty, !ivd.ty.nullable, ivd.description,
   to_modify C ivd.directives, ivd.default_value⟩

/-- `to_args`: the declared arguments, keyed by name in declaration order. -/
def to_args (C : Codecs) (fd : FieldDefinition) : List (String × ConfigArg) :=
  fd.arguments.map fun a => (a.name, to_arg C a)

/-- `to_common_field`: decode every per-field directive; `http` and
`graphql` decodes combine applicatively, the rest are read as options. -/
def to_common_field (C : Codecs) (ty : TypeAst) (nullable : Bool)
    (args : List (String × ConfigArg)) (description : Option String)
    (directives : List Directive) : Valid ConfigField String :=
  ((to_http C directives).zip (to_graphqlsource C directives)).map fun hg =>
    ⟨to_type_of ty, is_list_base ty, !nullable, list_item_required ty, args,
     description, to_modify C directives, to_inline C directives, hg.1,
     to_unsafe_operation C directives, to_batch C directives,
     to_const_field C directives, hg.2⟩

/-- `to_field`. -/
def to_field (C : Codecs) (fd : FieldDefinition) : Valid ConfigField String :=
  to_common_field C fd.ty fd.ty.nullable (to_args C fd) fd.description fd.directives

/-- `to_input_object_field`. -/
def to_input_object_field (C : Codecs) (ivd : InputValueDefinition) :
    Valid ConfigField String :=
  to_common_field C ivd.ty ivd.ty.nullable [] ivd.description ivd.directives

/-- `to_fields_inner`: lower every field of a type with the accumulating
iterator, pairing each lowered field with its name. -/
def to_fields_inner {T : Type} (fields : List T) (name_of : T → String)
    (transform : T → Valid ConfigField String) :
    Valid (List (String × ConfigField)) String :=
  Valid.from_iter fields fun f => (transform f).map fun cf => (name_of f, cf)

/-- `to_fields`. -/
def to_fields (C : Codecs) (fields : List FieldDefinition) :
    Valid (List (String × ConfigField)) String :=
  to_fields_inner fields (fun f => f.name) (to_field C)

/-- `to_input_object_fields`. -/
def to_input_object_fields (C : Codecs) (fields : List InputValueDefinition) :
    Valid (List (String × ConfigField)) String :=
  to_fields_inner fields (fun f => f.name) (to_input_object_field C)

/-- `to_object_type`. -/
def to_object_type (C : Codecs) (fields : List FieldDefinition)
    (description : Option String) (interface : Bool) (implements : List String) :
    Valid ConfigTypeDef String :=
  (to_fields C fields).map fun fs =>
    ⟨fs, description, interface, implements, none, false⟩

/-- `to_enum`. -/
def to_enum (values : List String) : ConfigTypeDef :=
  { ConfigTypeDef.default with variants := some values }

/-- `to_scalar_type`. -/
def to_scalar_type : ConfigTypeDef :=
  { ConfigTypeDef.default with scalar := true }

/-- `to_input_object`. -/
def to_input_object (C : Codecs) (fields : List InputValueDefinition) :
    Valid ConfigTypeDef String :=
  (to_input_object_fields C fields).map fun fs =>
    { ConfigTypeDef.default with fields := fs }

/-- The body of `to_types`' iterator: dispatch on the AST kind; unions are
excluded from the main type map (`none`). -/
def lower_type_definition (C : Codecs) (td : TypeDefinition) :
    Valid (String × Option ConfigTypeDef) String :=
  (match td.kind with
   | TypeKind.object fields implements =>
     (to_object_type C fields td.description false implements).map some
   | TypeKind.interface fields implements =>
     (to_object_type C fields td.description true implements).map some
   | TypeKind.enum values => Valid.succeed (some (to_enum values))
   | TypeKind.inputObject fields => (to_input_object C fields).map some
   | TypeKind.union _ => Valid.succeed none
   | TypeKind.scalar => Valid.succeed (some to_scalar_type)).map
    fun o => (td.name, o)

/-- `to_types`: lower every type definition with the accumulating iterator
and keep the non-union results keyed by name. -/
def to_types (C : Codecs) (tds : List TypeDefinition) :
    Valid (List (String × ConfigTypeDef)) String :=
  (Valid.from_iter tds (lower_type_definition C)).map fun v =>
    v.filterMap fun no => no.2.map fun t => (no.1, t)

/-! ## Introspection resolution

`introspect_endpoint` lives outside the staged sources and enters as the
`fetch` parameter.  Each function also returns the list of base URLs it
fetched, making the one effect of this pass observable. -/

abbrev IntrospectionCache : Type := List (String × IntrospectionResult)

/-- The pass state the introspection update reads and writes: the lowered
type map and the (seedable) cache. -/
structure Config where
  types : List (String × ConfigTypeDef)
  introspection_cache : IntrospectionCache
deriving Inhabited

/-- `update_introspection`: a directive without a base URL fails traced
`introspection`; a cached URL reuses its result without fetching; otherwise
the endpoint is fetched once, the result cached, and a fetch error becomes a
validation failure. -/
def update_introspection (fetch : String → Except String IntrospectionResult)
    (gs : GraphQLSource) (cache : IntrospectionCache) :
    Valid GraphQLSource String × IntrospectionCache × List String :=
  match gs.base_url with
  | none =>
    ((Valid.fail "No base url found for graphql directive").trace "introspection",
      cache, [])
  | some base_url =>
    match cache.lookup base_url with
    | some intro =>
      (Valid.succeed { gs with introspection := some intro }, cache, [])
    | none =>
      match fetch base_url with
      | Except.ok intro =>
        (Valid.succeed { gs with introspection := some intro },
          (base_url, intro) :: cache, [base_url])
      | Except.error e => (Valid.fail e, cache, [base_url])

/-- The inner loop of `update_introspection_results` over one type's fields:
thread the cache left to right, rewrite each `graphql` source with its
introspection result, and abort on the first failure. -/
def update_fields (fetch : String → Except String IntrospectionResult) :
    List (String × ConfigField) → IntrospectionCache →
      Valid (List (String × ConfigField)) String × IntrospectionCache × List String
  | [], cache => (Valid.succeed [], cache, [])
  | (n, f) :: rest, cache =>
    match f.graphql_source with
    | none =>
      let r := update_fields fetch rest cache
      (r.1.map fun fs => (n, f) :: fs, r.2.1, r.2.2)
    | some gs =>
      match update_introspection fetch gs cache with
      | (Except.ok gs2, c1, l1) =>
        let r := update_fields fetch rest c1
        (r.1.map fun fs => (n, { f with graphql_source := some gs2 }) :: fs,
          r.2.1, l1 ++ r.2.2)
      | (Except.error es, c1, l1) => (Except.error es, c1, l1)

/-- The outer loop of `update_introspection_results` over the type map. -/
def update_types (fetch : String → Except String IntrospectionResult) :
    List (String × ConfigTypeDef) → IntrospectionCache →
      Valid (List (String × ConfigTypeDef)) String × IntrospectionCache × List String
  | [], cache => (Valid.succeed [], cache, [])
  | (n, t) :: rest, cache =>
    match update_fields fetch t.fields cache with
    | (Except.ok fs, c1, l1) =>
      let r := update_types fetch rest c1
      (r.1.map fun ts => (n, { t with fields := fs }) :: ts, r.2.1, l1 ++ r.2.2)
    | (Except.error es, c1, l1) => (Except.error es, c1, l1)

/-- `update_introspection_results`: resolve every `graphql` source of every
field; the first failure aborts the whole pass with that failure, so no
partially resolved configuration is ever returned. -/
def update_introspection_results (fetch : String → Except String IntrospectionResult)
    (config : Config) : Valid Config String × List String :=
  match update_types fetch config.types config.introspection_cache with
  | (Except.ok ts, c, l) => (Valid.succeed ⟨ts, c⟩, l)
  | (Except.error es, _, l) => (Except.error es, l)

end FromDoc

namespace CallOp

/-! ## Statement predicates and concrete fixtures -/

/-- The per-segment behaviour of call-argument substitution: literals pass
through, expressions not headed by `args` pass through, and an `args`-headed
expression becomes the one first segment of the re-parse of the value looked
up under its second path element. -/
def SegmentSubstSpec (args : List (String × String)) (s out : Segment) : Prop :=
  match s with
  | Segment.literal l => out = Segment.literal l
  | Segment.expression h rest =>
    if h = "args" then
      ∃ second value, rest.head? = some second ∧
        find_value args second = some value ∧
        (Mustache.parse value).head? = some out
    else out = Segment.expression h rest

/-- The spec's `post` target: one declared argument `id`, an `http` resolver
with url `/posts/\x7b\x7bargs.id\x7d\x7d`. -/
def wit_http_rt : HttpRequestTemplate :=
  ⟨Mustache.parse "/posts/\x7b\x7bargs.id\x7d\x7d", [], [], none⟩

def wit_post_field : Field :=
  ⟨[("id", ⟨"ID", true⟩)], some ⟨0⟩, none, none, none, none⟩

def wit_config : ConfigModule :=
  ⟨[("Query", ⟨[("post", wit_post_field)]⟩)]⟩

/-- Concrete protocol compilers: `http` yields the `post` template with a
group key and a loader identity; the others fail. -/
def wit_compilers : Compilers :=
  ⟨fun _ _ _ =>
     Valid.succeed (Expression.io (IoNode.http wit_http_rt (some ⟨["id"]⟩) (some 7))),
   fun _ _ _ => Valid.fail "no graphql resolver",
   fun _ _ _ _ _ => Valid.fail "no grpc resolver"⟩

def wit_call_literal : Call := ⟨some "post", none, [("id", "1")]⟩

def wit_call_forward : Call :=
  ⟨some "post", none, [("id", "\x7b\x7bargs.postId\x7d\x7d")]⟩

def wit_call_missing : Call := ⟨some "post", none, []⟩

/-- The delegating field itself (no resolver of its own). -/
def wit_field : Field := ⟨[], none, none, none, none, none⟩

/-- A target whose compiled template references `args.other`, an argument
the target does not declare: the completeness check cannot protect the
substitution from it. -/
def wit_other_rt : HttpRequestTemplate :=
  ⟨Mustache.parse "/x/\x7b\x7bargs.other\x7d\x7d", [], [], none⟩

def wit_compilers_other : Compilers :=
  ⟨fun _ _ _ => Valid.succeed (Expression.io (IoNode.http wit_other_rt none none)),
   fun _ _ _ => Valid.fail "no graphql resolver",
   fun _ _ _ _ _ => Valid.fail "no grpc resolver"⟩

/-- A target field carrying no resolver directive at all. -/
def wit_config_bare : ConfigModule := ⟨[("Query", ⟨[("bare", wit_field)]⟩)]⟩

def wit_call_bare : Call := ⟨some "bare", none, []⟩

end CallOp

namespace FromDoc

/-- Codecs whose every decode fails: the shape of a malformed directive
block. -/
def bad_codecs : Codecs :=
  ⟨fun _ => Valid.fail "malformed", fun _ => Valid.fail "malformed",
   fun _ => Valid.fail "malformed", fun _ => Valid.fail "malformed",
   fun _ => Valid.fail "malformed", fun _ => Valid.fail "malformed",
   fun _ => Valid.fail "malformed"⟩

def modify_directive : Directive := ⟨"modify", [("field", "x")]⟩

/-- A field whose `http` directive fails to decode under `bad_codecs`. -/
def defect_field (n : String) : FieldDefinition :=
  ⟨n, ⟨BaseTypeAst.named "Int", true⟩, none, [], [⟨"http", []⟩]⟩

def defect_type (n : String) : TypeDefinition :=
  ⟨n, none, TypeKind.object [defect_field "f"] []⟩

def server_d1 : Directive := ⟨"server", [("f1", "a")]⟩
def server_d2 : Directive := ⟨"server", [("f2", "b")]⟩

/-- A fetch capability for the introspection fixtures: one good endpoint,
everything else failing. -/
def wit_fetch (u : String) : Except String IntrospectionResult :=
  if u = "http://a" then Except.ok ⟨"A"⟩ else Except.error "fetch failed"

def wit_gs : GraphQLSource := ⟨some "http://a", none⟩

def wit_cfg_field : ConfigField :=
  ⟨"T", false, true, false, [], none, none, none, none, none, none, none, some wit_gs⟩

def wit_cfg : Config :=
  ⟨[("Query", { ConfigTypeDef.default with fields := [("f", wit_cfg_field)] }),
    ("Extra", { ConfigTypeDef.default with fields := [("g", wit_cfg_field)] })], []⟩

end FromDoc

/-! ## Theorems -/

theorem Valid.errors_map {a b e : Type} (f : a → b) (v : Valid a e) :
    (Valid.map f v).errors = v.errors := by
  cases v <;> rfl

theorem Valid.errors_zip {a b e : Type} (v : Valid a e) (w : Valid b e) :
    (Valid.zip v w).errors = v.errors ++ w.errors := by
  cases v <;> cases w <;> simp [Valid.zip, Valid.errors]

theorem Valid.errors_from_iter {α b e : Type} (f : α → Valid b e) :
    ∀ xs : List α, (Valid.from_iter xs f).errors = xs.flatMap fun x => (f x).errors := by
  intro xs
  induction xs with
  | nil => rfl
  | cons x rest ih =>
    simp [Valid.from_iter, Valid.errors_map, Valid.errors_zip, ih]

theorem mapM_some_forall2 {α β : Type} {f : α → Option β} :
    ∀ {t : List α} {out : List β}, t.mapM f = some out →
      List.Forall₂ (fun s s' => f s = some s') t out := by
  intro t
  induction t with
  | nil =>
    intro out h
    simp only [List.mapM_nil, pure, Option.some.injEq] at h
    subst h
    exact List.Forall₂.nil
  | cons a l ih =>
    intro out h
    rw [List.mapM_cons] at h
    cases hfa : f a with
    | none => rw [hfa] at h; simp at h
    | some b =>
      rw [hfa] at h
      cases hfl : l.mapM f with
      | none => rw [hfl] at h; simp at h
      | some bs =>
        rw [hfl] at h
        simp only [bind, Option.bind, pure, Option.some.injEq] at h
        subst h
        exact List.Forall₂.cons hfa (ih hfl)

theorem mapM_isSome_of_forall {α β : Type} {f : α → Option β} :
    ∀ {t : List α}, (∀ a ∈ t, (f a).isSome) → ∃ out, t.mapM f = some out := by
  intro t
  induction t with
  | nil => intro _; exact ⟨[], rfl⟩
  | cons a l ih =>
    intro h
    obtain ⟨b, hb⟩ := Option.isSome_iff_exists.mp (h a (by simp))
    obtain ⟨bs, hbs⟩ := ih fun x hx => h x (by simp [hx])
    exact ⟨b :: bs, by rw [List.mapM_cons, hb, hbs]; rfl⟩

namespace CallOp

theorem replace_segment_spec (args : List (String × String)) (s s' : Segment)
    (h : replace_segment args s = some s') : SegmentSubstSpec args s s' := by
  cases s with
  | literal l =>
    simp only [replace_segment, Option.some.injEq] at h
    simpa [SegmentSubstSpec] using h.symm
  | expression hd rest =>
    simp only [SegmentSubstSpec]
    by_cases hh : hd = "args"
    · subst hh
      rw [if_pos rfl]
      cases hsec : rest.head? with
      | none => simp [replace_segment, hsec] at h
      | some second =>
        cases hval : find_value args second with
        | none => simp [replace_segment, hsec, hval] at h
        | some value =>
          cases hseg : (Mustache.parse value).head? with
          | none => simp [replace_segment, hsec, hval, hseg] at h
          | some seg =>
            simp [replace_segment, hsec, hval, hseg] at h
            exact ⟨second, value, rfl, hval, by rw [hseg, h]⟩
    · rw [if_neg hh]
      simp only [replace_segment, if_neg hh, Option.some.injEq] at h
      exact h.symm

theorem replace_segment_total (args : List (String × String)) (s : Segment)
    (h : ∀ hd rest, s = Segment.expression hd rest → hd = "args" →
      ∃ second, rest.head? = some second ∧
      ∃ value, find_value args second = some value ∧ Mustache.parse value ≠ []) :
    (replace_segment args s).isSome := by
  cases s with
  | literal l => rfl
  | expression hd rest =>
    by_cases hh : hd = "args"
    · subst hh
      obtain ⟨second, hsec, value, hval, hne⟩ := h _ _ rfl rfl
      cases hp : Mustache.parse value with
      | nil => exact absurd hp hne
      | cons seg segs =>
        simp [replace_segment, hsec, hval, hp]
    · simp [replace_segment, hh]

end CallOp

namespace CallOp

/-- C1: `replace_mustache_value` maps literal segments unchanged, passes
through expression segments not headed by `args`, and replaces each
`args`-headed expression by exactly one segment — the first segment of the
re-parsed value looked up under its second path element; a plain value
yields a literal and a template-expression value yields a new expression. -/
theorem C1_call_substitution :
    (∀ (args : List (String × String)) (t out : Mustache),
       replace_mustache_value t args = some out →
       List.Forall₂ (SegmentSubstSpec args) t out)
  ∧ replace_mustache_value [Segment.expression "args" ["id"]] [("id", "1")] =
      some [Segment.literal "1"]
  ∧ replace_mustache_value [Segment.expression "args" ["id"]]
      [("id", "\x7b\x7bargs.postId\x7d\x7d")] =
      some [Segment.expression "args" ["postId"]] := by
  refine ⟨?_, rfl, rfl⟩
  intro args t out h
  have h2 := mapM_some_forall2 (f := replace_segment args) h
  exact h2.imp fun a b hab => replace_segment_spec args a b hab

theorem C1_call_substitution_witness :
    List.Forall₂ (SegmentSubstSpec [("id", "1")])
      [Segment.expression "args" ["id"]] [Segment.literal "1"] :=
  C1_call_substitution.1 [("id", "1")] [Segment.expression "args" ["id"]]
    [Segment.literal "1"] rfl

/-- C10: the substitution is partial — an `args`-headed expression with
fewer than two path elements, a second element absent from the mapping, or
a value re-parsing to an empty template each panic (`none`); under the
precondition that every `args`-headed expression has a second element mapped
to a value with a non-empty re-parse, it is total.  The completeness check
of `compile_call` does not establish that precondition: a complete call can
still panic when the target's template mentions an undeclared argument. -/
theorem C10_substitution_partiality :
    replace_mustache_value [Segment.expression "args" []] [("id", "1")] = none
  ∧ replace_mustache_value [Segment.expression "args" ["other"]] [("id", "1")] = none
  ∧ replace_mustache_value [Segment.expression "args" ["id"]] [("id", "")] = none
  ∧ (∀ (args : List (String × String)) (t : Mustache),
       (∀ s ∈ t, ∀ hd rest, s = Segment.expression hd rest → hd = "args" →
         ∃ second, rest.head? = some second ∧
         ∃ value, find_value args second = some value ∧ Mustache.parse value ≠ []) →
       ∃ out, replace_mustache_value t args = some out)
  ∧ compile_call wit_compilers_other wit_field wit_config wit_call_literal
      GraphQLOperationType.query = none := by
  refine ⟨rfl, rfl, rfl, ?_, rfl⟩
  intro args t h
  exact mapM_isSome_of_forall fun s hs => replace_segment_total args s (h s hs)

theorem C10_substitution_partiality_witness :
    ∃ out, replace_mustache_value [Segment.expression "args" ["id"]]
      [("id", "1")] = some out :=
  C10_substitution_partiality.2.2.2.1 [("id", "1")]
    [Segment.expression "args" ["id"]]
    (by
      intro s hs hd rest hse hhd
      simp only [List.mem_singleton] at hs
      subst hs
      cases hse
      exact ⟨"id", rfl, "1", rfl, by decide⟩)

end CallOp

namespace CallOp

/-- C6: target resolution fails with exactly the documented message at each
missing stage — no target set, root type absent, field absent — and succeeds
with the target field otherwise; the root type name is `Query` when the
query target is set, else `Mutation`. -/
theorem C6_target_resolution :
    ∀ (call : Call) (cm : ConfigModule),
      (∀ q, call.query = some q → get_type_and_field call = some ("Query", q))
    ∧ (∀ m, call.query = none → call.mutation = some m →
        get_type_and_field call = some ("Mutation", m))
    ∧ (call.query = none → call.mutation = none →
        get_field_and_field_name call cm =
          Valid.fail "call must have query or mutation")
    ∧ (∀ tname fname, get_type_and_field call = some (tname, fname) →
        cm.find_type tname = none →
        get_field_and_field_name call cm =
          Valid.fail (tname ++ " type not found on config"))
    ∧ (∀ tname fname qt, get_type_and_field call = some (tname, fname) →
        cm.find_type tname = some qt → qt.fields.lookup fname = none →
        get_field_and_field_name call cm =
          Valid.fail (fname ++ " field not found"))
    ∧ (∀ tname fname qt f, get_type_and_field call = some (tname, fname) →
        cm.find_type tname = some qt → qt.fields.lookup fname = some f →
        get_field_and_field_name call cm = Valid.succeed (f, fname, call.args)) := by
  intro call cm
  refine ⟨?_, ?_, ?_, ?_, ?_, ?_⟩
  · intro q hq
    simp [get_type_and_field, hq]
  · intro m hq hm
    simp [get_type_and_field, hq, hm]
  · intro hq hm
    simp [get_field_and_field_name, get_type_and_field, hq, hm,
      Valid.from_option, Valid.fail, Valid.and_then]
  · intro tname fname hg hf
    simp [get_field_and_field_name, hg, hf,
      Valid.from_option, Valid.fail, Valid.succeed, Valid.and_then, Valid.map]
  · intro tname fname qt hg hf hl
    simp [get_field_and_field_name, hg, hf, hl,
      Valid.from_option, Valid.fail, Valid.succeed, Valid.and_then, Valid.map]
  · intro tname fname qt f hg hf hl
    simp [get_field_and_field_name, hg, hf, hl,
      Valid.from_option, Valid.fail, Valid.succeed, Valid.and_then, Valid.map]

theorem C6_target_resolution_witness :
    get_field_and_field_name wit_call_missing wit_config =
      Valid.succeed (wit_post_field, "post", []) :=
  (C6_target_resolution wit_call_missing wit_config).2.2.2.2.2 "Query" "post"
    ⟨[("post", wit_post_field)]⟩ wit_post_field rfl rfl rfl

/-- C2: when some declared argument of the resolved target is absent from
the call's argument mapping, `compile_call` fails — for every choice of
protocol compilers, so before any resolver compilation — with one failure
naming every missing argument, traced with the target field's name; when
none is missing the check passes and compilation proceeds to the resolver
dispatch. -/
theorem C2_missing_arguments :
    ∀ (C : Compilers) (field : Field) (cm : ConfigModule) (call : Call)
      (op : GraphQLOperationType) (tfield : Field) (fname : String)
      (cargs : List (String × String)),
      get_field_and_field_name call cm = Except.ok (tfield, fname, cargs) →
      ∀ missing,
        missing = tfield.args.filter (fun ka => !(cargs.any fun kv => kv.1 = ka.1)) →
        (missing ≠ [] →
          compile_call C field cm call op =
            some ((Valid.fail ("no argument " ++
              String.intercalate ", " (missing.map fun ka => "'" ++ ka.1 ++ "'") ++
              " found")).trace fname))
      ∧ (missing = [] →
          compile_call C field cm call op =
            dispatch_resolver C cm field op tfield fname cargs) := by
  intro C field cm call op tfield fname cargs hget missing hm
  subst hm
  constructor
  · intro hne
    have h0 : 0 < (tfield.args.filter fun ka =>
        !(cargs.any fun kv => kv.1 = ka.1)).length := List.length_pos.mpr hne
    simp [compile_call, hget, h0]
  · intro he
    simp [compile_call, hget, he]

theorem C2_missing_arguments_witness :
    compile_call wit_compilers wit_field wit_config wit_call_missing
      GraphQLOperationType.query =
      some ((Valid.fail "no argument 'id' found").trace "post") := by
  have h := (C2_missing_arguments wit_compilers wit_field wit_config
    wit_call_missing GraphQLOperationType.query wit_post_field "post" [] rfl
    _ rfl).1 (by decide)
  exact h

end CallOp

namespace CallOp

/-- C3: each `transform_*` rebuilds the IO node with the substituted request
template and exactly the batching identity the direct compilation produced —
`group_by` and `dl_id` for HTTP and gRPC, `field_name`, `batch` and `dl_id`
for GraphQL — and changes nothing else of the node. -/
theorem C3_loader_batch_preservation :
    (∀ (C : Compilers) (cm : ConfigModule) (field : Field) (hd : HttpDirective)
       (args : List (String × String)) (rt rt2 : HttpRequestTemplate)
       (gb : Option GroupBy) (dl : Option DataLoaderId),
       C.compile_http cm field hd =
         Valid.succeed (Expression.io (IoNode.http rt gb dl)) →
       subst_http_template rt args = some rt2 →
       transform_http C cm field hd args =
         some (Valid.succeed (Expression.io (IoNode.http rt2 gb dl))))
  ∧ (∀ (C : Compilers) (cm : ConfigModule) (op : GraphQLOperationType)
       (g : GraphQLDirective) (args : List (String × String))
       (rt rt2 : GraphQLRequestTemplate) (fname : String) (batch : Bool)
       (dl : Option DataLoaderId),
       C.compile_graphql cm op g =
         Valid.succeed (Expression.io (IoNode.graphql rt fname batch dl)) →
       subst_graphql_template rt args = some rt2 →
       transform_graphql C cm op g args =
         some (Valid.succeed (Expression.io (IoNode.graphql rt2 fname batch dl))))
  ∧ (∀ (C : Compilers) (cm : ConfigModule) (op : GraphQLOperationType)
       (field : Field) (g : GrpcDirective) (args : List (String × String))
       (rt rt2 : GrpcRequestTemplate) (gb : Option GroupBy)
       (dl : Option DataLoaderId),
       C.compile_grpc cm op field g false =
         Valid.succeed (Expression.io (IoNode.grpc rt gb dl)) →
       subst_grpc_template rt args = some rt2 →
       transform_grpc C cm op field g args =
         some (Valid.succeed (Expression.io (IoNode.grpc rt2 gb dl)))) := by
  refine ⟨?_, ?_, ?_⟩
  · intro C cm field hd args rt rt2 gb dl hc hs
    simp [transform_http, hc, Valid.succeed, hs]
  · intro C cm op g args rt rt2 fname batch dl hc hs
    simp [transform_graphql, hc, Valid.succeed, hs]
  · intro C cm op field g args rt rt2 gb dl hc hs
    simp [transform_grpc, hc, Valid.succeed, hs]

theorem C3_loader_batch_preservation_witness :
    transform_http wit_compilers wit_config wit_field ⟨0⟩ [("id", "1")] =
      some (Valid.succeed (Expression.io (IoNode.http
        ⟨[Segment.literal "/posts/", Segment.literal "1"], [], [], none⟩
        (some ⟨["id"]⟩) (some 7)))) :=
  C3_loader_batch_preservation.1 wit_compilers wit_config wit_field ⟨0⟩
    [("id", "1")] wit_http_rt
    ⟨[Segment.literal "/posts/", Segment.literal "1"], [], [], none⟩
    (some ⟨["id"]⟩) (some 7) rfl rfl

theorem transform_http_errors (C : Compilers) (cm : ConfigModule) (field : Field)
    (hd : HttpDirective) (args : List (String × String)) (v : Valid Expression String)
    (hv : transform_http C cm field hd args = some v) (hne : Valid.errors v ≠ []) :
    Valid.errors v = Valid.errors (C.compile_http cm field hd) := by
  cases hc : C.compile_http cm field hd with
  | error es =>
    simp only [transform_http, hc, Option.some.injEq] at hv
    rw [← hv]
  | ok expr =>
    cases expr with
    | literal _ => simp [transform_http, hc] at hv
    | io node =>
      cases node with
      | http rt gb dl =>
        cases hs : subst_http_template rt args with
        | none => simp [transform_http, hc, hs] at hv
        | some rt2 =>
          simp [transform_http, hc, hs, Valid.succeed] at hv
          subst hv
          exact absurd rfl hne
      | graphql rt fn b dl => simp [transform_http, hc] at hv
      | grpc rt gb dl => simp [transform_http, hc] at hv

theorem transform_graphql_errors (C : Compilers) (cm : ConfigModule)
    (op : GraphQLOperationType) (g : GraphQLDirective)
    (args : List (String × String)) (v : Valid Expression String)
    (hv : transform_graphql C cm op g args = some v) (hne : Valid.errors v ≠ []) :
    Valid.errors v = Valid.errors (C.compile_graphql cm op g) := by
  cases hc : C.compile_graphql cm op g with
  | error es =>
    simp only [transform_graphql, hc, Option.some.injEq] at hv
    rw [← hv]
  | ok expr =>
    cases expr with
    | literal _ => simp [transform_graphql, hc] at hv
    | io node =>
      cases node with
      | graphql rt fn b dl =>
        cases hs : subst_graphql_template rt args with
        | none => simp [transform_graphql, hc, hs] at hv
        | some rt2 =>
          simp [transform_graphql, hc, hs, Valid.succeed] at hv
          subst hv
          exact absurd rfl hne
      | http rt gb dl => simp [transform_graphql, hc] at hv
      | grpc rt gb dl => simp [transform_graphql, hc] at hv

theorem transform_grpc_errors (C : Compilers) (cm : ConfigModule)
    (op : GraphQLOperationType) (field : Field) (g : GrpcDirective)
    (args : List (String × String)) (v : Valid Expression String)
    (hv : transform_grpc C cm op field g args = some v) (hne : Valid.errors v ≠ []) :
    Valid.errors v = Valid.errors (C.compile_grpc cm op field g false) := by
  cases hc : C.compile_grpc cm op field g false with
  | error es =>
    simp only [transform_grpc, hc, Option.some.injEq] at hv
    rw [← hv]
  | ok expr =>
    cases expr with
    | literal _ => simp [transform_grpc, hc] at hv
    | io node =>
      cases node with
      | grpc rt gb dl =>
        cases hs : subst_grpc_template rt args with
        | none => simp [transform_grpc, hc, hs] at hv
        | some rt2 =>
          simp [transform_grpc, hc, hs, Valid.succeed] at hv
          subst hv
          exact absurd rfl hne
      | http rt gb dl => simp [transform_grpc, hc] at hv
      | graphql rt fn b dl => simp [transform_grpc, hc] at hv

/-- C7: once the target is resolved and the argument check passes, a target
with none of the resolver directives fails with the no-resolver message
naming it, while a target with an `http`, `graphql` or `grpc` directive is
dispatched to the corresponding transform, whose failures are exactly those
of the underlying protocol compiler (so the no-resolver failure cannot arise
from a dispatched branch). -/
theorem C7_no_resolver_dispatch :
    ∀ (C : Compilers) (field : Field) (cm : ConfigModule) (call : Call)
      (op : GraphQLOperationType) (tfield : Field) (fname : String)
      (cargs : List (String × String)),
      get_field_and_field_name call cm = Except.ok (tfield, fname, cargs) →
      tfield.args.filter (fun ka => !(cargs.any fun kv => kv.1 = ka.1)) = [] →
      ((tfield.http = none → tfield.graphql = none → tfield.grpc = none →
          tfield.call = none → tfield.const_field = none →
          compile_call C field cm call op =
            some (Valid.fail (fname ++ " field has no resolver")))
      ∧ (∀ hd, tfield.http = some hd →
          compile_call C field cm call op = transform_http C cm field hd cargs)
      ∧ (∀ g, tfield.http = none → tfield.graphql = some g →
          compile_call C field cm call op = transform_graphql C cm op g cargs)
      ∧ (∀ g, tfield.http = none → tfield.graphql = none → tfield.grpc = some g →
          compile_call C field cm call op = transform_grpc C cm op field g cargs)
      ∧ (∀ hd v, transform_http C cm field hd cargs = some v →
          Valid.errors v ≠ [] →
          Valid.errors v = Valid.errors (C.compile_http cm field hd))
      ∧ (∀ g v, transform_graphql C cm op g cargs = some v →
          Valid.errors v ≠ [] →
          Valid.errors v = Valid.errors (C.compile_graphql cm op g))
      ∧ (∀ g v, transform_grpc C cm op field g cargs = some v →
          Valid.errors v ≠ [] →
          Valid.errors v = Valid.errors (C.compile_grpc cm op field g false))) := by
  intro C field cm call op tfield fname cargs hget hempty
  refine ⟨?_, ?_, ?_, ?_, ?_, ?_, ?_⟩
  · intro h1 h2 h3 _ _
    simp [compile_call, hget, hempty, dispatch_resolver, h1, h2, h3]
  · intro hd hh
    simp [compile_call, hget, hempty, dispatch_resolver, hh]
  · intro g h1 h2
    simp [compile_call, hget, hempty, dispatch_resolver, h1, h2]
  · intro g h1 h2 h3
    simp [compile_call, hget, hempty, dispatch_resolver, h1, h2, h3]
  · intro hd v hv hne
    exact transform_http_errors C cm field hd cargs v hv hne
  · intro g v hv hne
    exact transform_graphql_errors C cm op g cargs v hv hne
  · intro g v hv hne
    exact transform_grpc_errors C cm op field g cargs v hv hne


theorem C7_no_resolver_dispatch_witness :
    compile_call wit_compilers wit_field wit_config_bare wit_call_bare
      GraphQLOperationType.query =
      some (Valid.fail "bare field has no resolver") :=
  (C7_no_resolver_dispatch wit_compilers wit_field wit_config_bare wit_call_bare
    GraphQLOperationType.query wit_field "bare" [] rfl rfl).1 rfl rfl rfl rfl rfl

end CallOp

instance {e a : Type} [DecidableEq e] [DecidableEq a] : DecidableEq (Except e a) :=
  fun x y =>
    match x, y with
    | Except.ok v, Except.ok w =>
      match decEq v w with
      | isTrue h => isTrue (h ▸ rfl)
      | isFalse h => isFalse fun hh => h (Except.ok.inj hh)
    | Except.error v, Except.error w =>
      match decEq v w with
      | isTrue h => isTrue (h ▸ rfl)
      | isFalse h => isFalse fun hh => h (Except.error.inj hh)
    | Except.ok _, Except.error _ => isFalse fun hh => Except.noConfusion hh
    | Except.error _, Except.ok _ => isFalse fun hh => Except.noConfusion hh

namespace FromDoc

theorem foldl_no_match {T : Type} (f : Directive → Valid T String) (name : String) :
    ∀ (ds : List Directive) (init : Valid T String),
      (∀ d ∈ ds, d.name ≠ name) →
      ds.foldl (fun res d => if d.name = name then f d else res) init = init := by
  intro ds
  induction ds with
  | nil => intro init _; rfl
  | cons d rest ih =>
    intro init h
    rw [List.foldl_cons, if_neg (h d (by simp))]
    exact ih init fun x hx => h x (by simp [hx])

/-- C4 counterexample: two `server` blocks, the first setting only `f1`, the
second only `f2`: the code keeps only the last block's decode (`f1` reverts
to its default), while the claimed field-by-field merge keeps both. -/
theorem C4_counterexample :
    process_schema_directives decode_server_settings ⟨none, none⟩
      [server_d1, server_d2] "server" = Valid.succeed ⟨none, some "b"⟩
  ∧ process_schema_directives_merged decode_server_settings ⟨none, none⟩
      [server_d1, server_d2] "server" = Valid.succeed ⟨some "a", some "b"⟩
  ∧ process_schema_directives decode_server_settings ⟨none, none⟩
      [server_d1, server_d2] "server" ≠
    process_schema_directives_merged decode_server_settings ⟨none, none⟩
      [server_d1, server_d2] "server" :=
  ⟨rfl, rfl, by decide⟩

/-- C4 amended: decoding a repeated root directive walks every block in
document order, but each matching block's decode fully replaces the
accumulated result: the outcome is the decode of the last matching block
alone (the default when none matches), discarding earlier blocks' fields
and earlier failures — not a field-by-field merge. -/
theorem C4_last_block_replaces :
    ∀ {T : Type} (f : Directive → Valid T String) (default : T) (name : String),
      (∀ ds : List Directive, (∀ d ∈ ds, d.name ≠ name) →
        process_schema_directives f default ds name = Valid.succeed default)
    ∧ (∀ (ds1 : List Directive) (d : Directive) (ds2 : List Directive),
        d.name = name → (∀ d2 ∈ ds2, d2.name ≠ name) →
        process_schema_directives f default (ds1 ++ d :: ds2) name = f d) := by
  intro T f default name
  constructor
  · intro ds h
    exact foldl_no_match f name ds _ h
  · intro ds1 d ds2 hd h2
    rw [process_schema_directives, List.foldl_append, List.foldl_cons, if_pos hd]
    exact foldl_no_match f name ds2 _ h2

theorem C4_last_block_replaces_witness :
    process_schema_directives decode_server_settings
      (⟨none, none⟩ : ServerSettings) [server_d1, server_d2] "server" =
      decode_server_settings server_d2 :=
  (C4_last_block_replaces decode_server_settings ⟨none, none⟩ "server").2
    [server_d1] server_d2 [] rfl (by simp)

theorem findSome_decoder_none {b : Type} (nm : String) (g : Directive → Option b) :
    ∀ ds : List Directive, (∀ d ∈ ds, d.name = nm → g d = none) →
      (ds.findSome? fun d => if d.name = nm then g d else none) = none := by
  intro ds
  induction ds with
  | nil => intro _; rfl
  | cons d rest ih =>
    intro h
    by_cases hd : d.name = nm
    · simp only [List.findSome?_cons, if_pos hd, h d (by simp) hd]
      exact ih fun x hx hx2 => h x (by simp [hx]) hx2
    · simp only [List.findSome?_cons, if_neg hd]
      exact ih fun x hx hx2 => h x (by simp [hx]) hx2

/-- C5 counterexample: a matched `modify` block whose decode fails yields
`None` silently — no validation failure — although the decode itself
carries a failure. -/
theorem C5_counterexample :
    to_modify bad_codecs [modify_directive] = none
  ∧ Valid.errors (bad_codecs.modify_from_directive modify_directive) ≠ [] :=
  ⟨rfl, by decide⟩

/-- C5 amended: an unmatched directive name always yields `None`/default and
never a failure; a matched `http` or `graphql` block whose decode fails
propagates that failure, but for `modify`, `inline`, `unsafe`, `groupBy` and
`const` a matched block whose decode fails is silently skipped, yielding
`None` when every matching block's decode fails. -/
theorem C5_decoder_failures :
    ∀ (C : Codecs) (ds : List Directive),
      ((∀ d ∈ ds, d.name ≠ "http") → to_http C ds = Valid.succeed none)
    ∧ (∀ d es, ds.find? (fun x => x.name == "http") = some d →
        C.http_from_directive d = Except.error es → to_http C ds = Except.error es)
    ∧ (∀ d h2, ds.find? (fun x => x.name == "http") = some d →
        C.http_from_directive d = Valid.succeed h2 →
        to_http C ds = Valid.succeed (some h2))
    ∧ ((∀ d ∈ ds, d.name ≠ "graphql") → to_graphqlsource C ds = Valid.succeed none)
    ∧ (∀ d es, ds.find? (fun x => x.name == "graphql") = some d →
        C.graphql_from_directive d = Except.error es →
        to_graphqlsource C ds = Except.error es)
    ∧ (∀ d g2, ds.find? (fun x => x.name == "graphql") = some d →
        C.graphql_from_directive d = Valid.succeed g2 →
        to_graphqlsource C ds = Valid.succeed (some g2))
    ∧ ((∀ d ∈ ds, d.name = "modify" → (C.modify_from_directive d).toOption = none) →
        to_modify C ds = none)
    ∧ ((∀ d ∈ ds, d.name = "inline" → (C.inline_from_directive d).toOption = none) →
        to_inline C ds = none)
    ∧ ((∀ d ∈ ds, d.name = "unsafe" → (C.unsafe_from_directive d).toOption = none) →
        to_unsafe_operation C ds = none)
    ∧ ((∀ d ∈ ds, d.name = "groupBy" → (C.groupby_from_directive d).toOption = none) →
        to_batch C ds = none)
    ∧ ((∀ d ∈ ds, d.name = "const" → (C.const_from_directive d).toOption = none) →
        to_const_field C ds = none) := by
  intro C ds
  refine ⟨?_, ?_, ?_, ?_, ?_, ?_, ?_, ?_, ?_, ?_, ?_⟩
  · intro h
    have hf : ds.find? (fun x => x.name == "http") = none := by
      rw [List.find?_eq_none]
      intro x hx
      simpa using h x hx
    simp [to_http, hf]
  · intro d es hfind hdec
    simp [to_http, hfind, hdec, Valid.map]
  · intro d h2 hfind hdec
    simp [to_http, hfind, hdec, Valid.succeed, Valid.map]
  · intro h
    have hf : ds.find? (fun x => x.name == "graphql") = none := by
      rw [List.find?_eq_none]
      intro x hx
      simpa using h x hx
    simp [to_graphqlsource, hf]
  · intro d es hfind hdec
    simp [to_graphqlsource, hfind, hdec, Valid.map]
  · intro d g2 hfind hdec
    simp [to_graphqlsource, hfind, hdec, Valid.succeed, Valid.map]
  · exact findSome_decoder_none "modify" _ ds
  · exact findSome_decoder_none "inline" _ ds
  · exact findSome_decoder_none "unsafe" _ ds
  · exact findSome_decoder_none "groupBy" _ ds
  · exact findSome_decoder_none "const" _ ds

theorem C5_decoder_failures_witness :
    to_http bad_codecs [⟨"http", []⟩] = Except.error [⟨"malformed", []⟩]
  ∧ to_modify bad_codecs [⟨"modify", []⟩, ⟨"modify", []⟩] = none := by
  constructor
  · exact (C5_decoder_failures bad_codecs [⟨"http", []⟩]).2.1 ⟨"http", []⟩
      [⟨"malformed", []⟩] rfl rfl
  · exact (C5_decoder_failures bad_codecs
      [⟨"modify", []⟩, ⟨"modify", []⟩]).2.2.2.2.2.2.1 (by decide)

end FromDoc

namespace FromDoc

/-- C8: both lowering levels ride on the accumulating iterator — the
diagnostics of `to_fields_inner` are the concatenation, in declaration
order, of every field's diagnostics, and those of `to_types` the
concatenation of every type definition's — so one pass reports every
defect; a concrete document with two independently defective fields reports
exactly two diagnostics. -/
theorem C8_error_accumulation :
    (∀ {T : Type} (fields : List T) (name_of : T → String)
       (transform : T → Valid ConfigField String),
       Valid.errors (to_fields_inner fields name_of transform) =
         fields.flatMap fun f => Valid.errors (transform f))
  ∧ (∀ (C : Codecs) (tds : List TypeDefinition),
       Valid.errors (to_types C tds) =
         tds.flatMap fun td => Valid.errors (lower_type_definition C td))
  ∧ (∀ (C : Codecs) (fields : List FieldDefinition),
       Valid.errors (to_fields C fields) =
         fields.flatMap fun f => Valid.errors (to_field C f))
  ∧ Valid.errors (to_types bad_codecs [defect_type "A", defect_type "B"]) =
      [⟨"malformed", []⟩, ⟨"malformed", []⟩] := by
  refine ⟨?_, ?_, ?_, rfl⟩
  · intro T fields name_of transform
    rw [to_fields_inner, Valid.errors_from_iter]
    simp [Valid.errors_map]
  · intro C tds
    rw [to_types, Valid.errors_map, Valid.errors_from_iter]
  · intro C fields
    rw [to_fields, to_fields_inner, Valid.errors_from_iter]
    simp [Valid.errors_map]

end FromDoc

namespace FromDoc

theorem update_introspection_spec (fetch : String → Except String IntrospectionResult)
    (gs : GraphQLSource) (cache : IntrospectionCache) :
    (update_introspection fetch gs cache).2.2.Nodup
  ∧ (∀ u ∈ (update_introspection fetch gs cache).2.2, cache.lookup u = none)
  ∧ (∀ u i, cache.lookup u = some i →
      (update_introspection fetch gs cache).2.1.lookup u = some i)
  ∧ (∀ gs2, (update_introspection fetch gs cache).1 = Except.ok gs2 →
      (∀ u ∈ (update_introspection fetch gs cache).2.2,
        ((update_introspection fetch gs cache).2.1.lookup u).isSome)
    ∧ gs2.introspection.isSome) := by
  cases hb : gs.base_url with
  | none =>
    simp only [update_introspection, hb]
    refine ⟨List.nodup_nil, by simp, fun u i h => h, ?_⟩
    intro gs2 hok
    exact absurd hok (by simp [Valid.fail, Valid.trace])
  | some base_url =>
    cases hl : cache.lookup base_url with
    | some intro2 =>
      simp only [update_introspection, hb, hl]
      refine ⟨List.nodup_nil, by simp, fun u i h => h, ?_⟩
      intro gs2 hok
      simp only [Valid.succeed, Except.ok.injEq] at hok
      subst hok
      exact ⟨by simp, rfl⟩
    | none =>
      cases hf : fetch base_url with
      | ok intro2 =>
        simp only [update_introspection, hb, hl, hf]
        refine ⟨List.nodup_singleton _, ?_, ?_, ?_⟩
        · intro u hu
          rw [List.mem_singleton] at hu
          subst hu
          exact hl
        · intro u i h
          have hne : u ≠ base_url := fun he => by rw [he, hl] at h; cases h
          have hbe : (u == base_url) = false := beq_eq_false_iff_ne.mpr hne
          simp [List.lookup, hbe, h]
        · intro gs2 hok
          refine ⟨?_, ?_⟩
          · intro u hu
            rw [List.mem_singleton] at hu
            subst hu
            simp [List.lookup]
          · simp only [Valid.succeed, Except.ok.injEq] at hok
            subst hok
            rfl
      | error e =>
        simp only [update_introspection, hb, hl, hf]
        refine ⟨List.nodup_singleton _, ?_, fun u i h => h, ?_⟩
        · intro u hu
          rw [List.mem_singleton] at hu
          subst hu
          exact hl
        · intro gs2 hok
          exact absurd hok (by simp [Valid.fail])

end FromDoc

namespace FromDoc

theorem update_fields_spec (fetch : String → Except String IntrospectionResult) :
    ∀ (fields : List (String × ConfigField)) (cache : IntrospectionCache),
      (update_fields fetch fields cache).2.2.Nodup
    ∧ (∀ u ∈ (update_fields fetch fields cache).2.2, cache.lookup u = none)
    ∧ (∀ u i, cache.lookup u = some i →
        (update_fields fetch fields cache).2.1.lookup u = some i)
    ∧ (∀ fs, (update_fields fetch fields cache).1 = Except.ok fs →
        (∀ u ∈ (update_fields fetch fields cache).2.2,
          ((update_fields fetch fields cache).2.1.lookup u).isSome)
      ∧ (∀ q ∈ fs, ∀ gs, q.2.graphql_source = some gs →
          gs.introspection.isSome)) := by
  intro fields
  induction fields with
  | nil =>
    intro cache
    refine ⟨List.nodup_nil, by simp [update_fields], fun u i h => h, ?_⟩
    intro fs hfs
    simp only [update_fields, Valid.succeed, Except.ok.injEq] at hfs
    subst hfs
    exact ⟨by simp [update_fields], by simp⟩
  | cons nf rest ih =>
    intro cache
    obtain ⟨n, f⟩ := nf
    cases hgs : f.graphql_source with
    | none =>
      simp only [update_fields, hgs]
      obtain ⟨ih1, ih2, ih3, ih4⟩ := ih cache
      refine ⟨ih1, ih2, ih3, ?_⟩
      intro fs hfs
      cases hr1 : (update_fields fetch rest cache).1 with
      | error es => rw [hr1] at hfs; exact absurd hfs (by simp [Valid.map])
      | ok fs2 =>
        rw [hr1] at hfs
        simp only [Valid.map, Except.ok.injEq] at hfs
        subst hfs
        obtain ⟨h4a, h4b⟩ := ih4 fs2 hr1
        refine ⟨h4a, ?_⟩
        intro q hq gs hq2
        rcases List.mem_cons.mp hq with hq | hq
        · subst hq
          rw [hgs] at hq2
          cases hq2
        · exact h4b q hq gs hq2
    | some gs =>
      simp only [update_fields, hgs]
      rcases hui : update_introspection fetch gs cache with ⟨r, c1, l1⟩
      have uspec := update_introspection_spec fetch gs cache
      rw [hui] at uspec
      dsimp only at uspec
      obtain ⟨u1, u2, u3, u4⟩ := uspec
      cases r with
      | error es =>
        dsimp only
        refine ⟨u1, u2, u3, ?_⟩
        intro fs hfs
        cases hfs
      | ok gs2 =>
        dsimp only
        obtain ⟨ucached, uintro⟩ := u4 gs2 rfl
        obtain ⟨ih1, ih2, ih3, ih4⟩ := ih c1
        refine ⟨?_, ?_, ?_, ?_⟩
        · refine List.Nodup.append u1 ih1 ?_
          intro a ha1 ha2
          have hsome := ucached a ha1
          rw [ih2 a ha2] at hsome
          cases hsome
        · intro u hu
          rcases List.mem_append.mp hu with hu | hu
          · exact u2 u hu
          · have hc1 := ih2 u hu
            cases hcu : cache.lookup u with
            | none => rfl
            | some i => rw [u3 u i hcu] at hc1; cases hc1
        · intro u i h
          exact ih3 u i (u3 u i h)
        · intro fs hfs
          cases hr1 : (update_fields fetch rest c1).1 with
          | error es => rw [hr1] at hfs; exact absurd hfs (by simp [Valid.map])
          | ok fs2 =>
            rw [hr1] at hfs
            simp only [Valid.map, Except.ok.injEq] at hfs
            subst hfs
            obtain ⟨h4a, h4b⟩ := ih4 fs2 hr1
            refine ⟨?_, ?_⟩
            · intro u hu
              rcases List.mem_append.mp hu with hu | hu
              · obtain ⟨i, hi⟩ := Option.isSome_iff_exists.mp (ucached u hu)
                rw [ih3 u i hi]
                rfl
              · exact h4a u hu
            · intro q hq gsx hq2
              rcases List.mem_cons.mp hq with hq | hq
              · subst hq
                simp only at hq2
                rw [Option.some.injEq] at hq2
                subst hq2
                exact uintro
              · exact h4b q hq gsx hq2

end FromDoc

namespace FromDoc

theorem update_types_spec (fetch : String → Except String IntrospectionResult) :
    ∀ (types : List (String × ConfigTypeDef)) (cache : IntrospectionCache),
      (update_types fetch types cache).2.2.Nodup
    ∧ (∀ u ∈ (update_types fetch types cache).2.2, cache.lookup u = none)
    ∧ (∀ u i, cache.lookup u = some i →
        (update_types fetch types cache).2.1.lookup u = some i)
    ∧ (∀ ts, (update_types fetch types cache).1 = Except.ok ts →
        (∀ u ∈ (update_types fetch types cache).2.2,
          ((update_types fetch types cache).2.1.lookup u).isSome)
      ∧ (∀ p ∈ ts, ∀ q ∈ p.2.fields, ∀ gs, q.2.graphql_source = some gs →
          gs.introspection.isSome)) := by
  intro types
  induction types with
  | nil =>
    intro cache
    refine ⟨List.nodup_nil, by simp [update_types], fun u i h => h, ?_⟩
    intro ts hts
    simp only [update_types, Valid.succeed, Except.ok.injEq] at hts
    subst hts
    exact ⟨by simp [update_types], by simp⟩
  | cons nt rest ih =>
    intro cache
    obtain ⟨n, t⟩ := nt
    simp only [update_types]
    rcases huf : update_fields fetch t.fields cache with ⟨r, c1, l1⟩
    have fspec := update_fields_spec fetch t.fields cache
    rw [huf] at fspec
    dsimp only at fspec
    obtain ⟨f1, f2, f3, f4⟩ := fspec
    cases r with
    | error es =>
      dsimp only
      refine ⟨f1, f2, f3, ?_⟩
      intro ts hts
      cases hts
    | ok fs =>
      dsimp only
      obtain ⟨fcached, ffields⟩ := f4 fs rfl
      obtain ⟨ih1, ih2, ih3, ih4⟩ := ih c1
      refine ⟨?_, ?_, ?_, ?_⟩
      · refine List.Nodup.append f1 ih1 ?_
        intro a ha1 ha2
        have hsome := fcached a ha1
        rw [ih2 a ha2] at hsome
        cases hsome
      · intro u hu
        rcases List.mem_append.mp hu with hu | hu
        · exact f2 u hu
        · have hc1 := ih2 u hu
          cases hcu : cache.lookup u with
          | none => rfl
          | some i => rw [f3 u i hcu] at hc1; cases hc1
      · intro u i h
        exact ih3 u i (f3 u i h)
      · intro ts hts
        cases hr1 : (update_types fetch rest c1).1 with
        | error es => rw [hr1] at hts; exact absurd hts (by simp [Valid.map])
        | ok ts2 =>
          rw [hr1] at hts
          simp only [Valid.map, Except.ok.injEq] at hts
          subst hts
          obtain ⟨h4a, h4b⟩ := ih4 ts2 hr1
          refine ⟨?_, ?_⟩
          · intro u hu
            rcases List.mem_append.mp hu with hu | hu
            · obtain ⟨i, hi⟩ := Option.isSome_iff_exists.mp (fcached u hu)
              rw [ih3 u i hi]
              rfl
            · exact h4a u hu
          · intro p hp q hq gs hq2
            rcases List.mem_cons.mp hp with hp | hp
            · subst hp
              exact ffields q hq gs hq2
            · exact h4b p hp q hq gs hq2

/-- C9: the introspection pass fetches each distinct base URL at most once —
no URL in the fetched list repeats and none was already in the (seedable)
cache, a cache hit is reused without any fetch, a `graphql` directive with no
base URL fails with the documented traced message, a fetch failure becomes
the propagated validation failure, and a successfully returned configuration
carries introspection data on every `graphql`-sourced field — never a
partially resolved one. -/
theorem C9_introspection_caching :
    ∀ (fetch : String → Except String IntrospectionResult) (config : Config),
      (update_introspection_results fetch config).2.Nodup
    ∧ (∀ u ∈ (update_introspection_results fetch config).2,
        config.introspection_cache.lookup u = none)
    ∧ (∀ (gs : GraphQLSource) (cache : IntrospectionCache) url intro2,
        gs.base_url = some url → cache.lookup url = some intro2 →
        update_introspection fetch gs cache =
          (Valid.succeed { gs with introspection := some intro2 }, cache, []))
    ∧ (∀ (gs : GraphQLSource) (cache : IntrospectionCache), gs.base_url = none →
        update_introspection fetch gs cache =
          ((Valid.fail "No base url found for graphql directive").trace
            "introspection", cache, []))
    ∧ (∀ (gs : GraphQLSource) (cache : IntrospectionCache) url e,
        gs.base_url = some url → cache.lookup url = none →
        fetch url = Except.error e →
        update_introspection fetch gs cache = (Valid.fail e, cache, [url]))
    ∧ (∀ config2 l,
        update_introspection_results fetch config = (Valid.succeed config2, l) →
        ∀ p ∈ config2.types, ∀ q ∈ p.2.fields, ∀ gs,
          q.2.graphql_source = some gs → gs.introspection.isSome) := by
  intro fetch config
  have tspec := update_types_spec fetch config.types config.introspection_cache
  refine ⟨?_, ?_, ?_, ?_, ?_, ?_⟩
  · rcases hut : update_types fetch config.types config.introspection_cache
      with ⟨r, c, l⟩
    rw [hut] at tspec
    dsimp only at tspec
    cases r with
    | error es => simpa [update_introspection_results, hut] using tspec.1
    | ok ts => simpa [update_introspection_results, hut] using tspec.1
  · rcases hut : update_types fetch config.types config.introspection_cache
      with ⟨r, c, l⟩
    rw [hut] at tspec
    dsimp only at tspec
    cases r with
    | error es =>
      intro u hu
      refine tspec.2.1 u ?_
      simpa [update_introspection_results, hut] using hu
    | ok ts =>
      intro u hu
      refine tspec.2.1 u ?_
      simpa [update_introspection_results, hut] using hu
  · intro gs cache url intro2 hb hl
    simp [update_introspection, hb, hl]
  · intro gs cache hb
    simp [update_introspection, hb]
  · intro gs cache url e hb hl hf
    simp [update_introspection, hb, hl, hf]
  · intro config2 l heq p hp q hq gs hq2
    rcases hut : update_types fetch config.types config.introspection_cache
      with ⟨r, c, l1⟩
    rw [hut] at tspec
    dsimp only at tspec
    cases r with
    | error es =>
      rw [update_introspection_results, hut] at heq
      cases heq
    | ok ts =>
      rw [update_introspection_results, hut] at heq
      dsimp only at heq
      have hc2 : config2 = ⟨ts, c⟩ := by
        have := congrArg Prod.fst heq
        simpa [Valid.succeed] using this.symm
      subst hc2
      exact tspec.2.2.2 ts rfl |>.2 p hp q hq gs hq2

end FromDoc

namespace FromDoc

theorem C9_introspection_caching_witness :
    update_introspection wit_fetch wit_gs [("http://a", ⟨"A"⟩)] =
      (Valid.succeed ⟨some "http://a", some ⟨"A"⟩⟩, [("http://a", ⟨"A"⟩)], []) :=
  (C9_introspection_caching wit_fetch wit_cfg).2.2.1 wit_gs
    [("http://a", ⟨"A"⟩)] "http://a" ⟨"A"⟩ rfl rfl

end FromDoc

end Tailcall
